import Mathlib

/-!
Verification of `calculate_permeability`
  (`scripts/permeability_calculator.py`)

Shallow embedding of the complex-permeability calculator: the Python
function computes, from a list of complex impedance samples, a list of
frequencies and the geometry of a toroidal sample, three parallel output
lists (complex permeability, its real part, its imaginary part).

Python/numpy floating-point arithmetic is idealised as exact real
arithmetic (`ℝ`, `ℂ`); the two `np.where` zero-guards of the source are
modelled by `if`-guards with the same conditions.  The vectorised numpy
operations are modelled elementwise with `List.map` / `List.zipWith`,
which for equal-length inputs is exactly numpy's broadcast semantics.
-/

namespace PermCalc

/-- The `sample_dimensions` dictionary of the source: outer diameter,
inner diameter, height (meters) and number of wire turns. -/
structure SampleGeometry where
  outer_diameter : ℝ
  inner_diameter : ℝ
  height : ℝ
  turns : ℝ

/-- Source constant `mu_0 = 4 * np.pi * 1e-7`, the vacuum permeability constant used by
the source. -/
noncomputable def mu_0 : ℝ := 4 * Real.pi * 1e-7

/-- Source line `mean_diameter = (outer_d + inner_d) / 2`. -/
noncomputable def mean_diameter (g : SampleGeometry) : ℝ :=
  (g.outer_diameter + g.inner_diameter) / 2

/-- Source line `cross_section_area = height * (outer_d - inner_d) / 2`. -/
noncomputable def cross_section_area (g : SampleGeometry) : ℝ :=
  g.height * (g.outer_diameter - g.inner_diameter) / 2

/-- Source line `mean_length = np.pi * mean_diameter`. -/
noncomputable def mean_length (g : SampleGeometry) : ℝ :=
  Real.pi * mean_diameter g

/-- The direct translation of `calculate_permeability`: each `let`
mirrors one numpy statement of the source, arrays become lists and the
vectorised operations become `List.map` / `List.zipWith`.  The two
`np.where(cond, x, 0)` guards become elementwise `if cond then x else 0`.
Returns `(complex_permeability, mu_real, mu_imag)`. -/
noncomputable def calculate_permeability (impedance : List ℂ)
    (frequency : List ℝ) (sample_dimensions : SampleGeometry) :
    List ℂ × List ℝ × List ℝ :=
  let outer_d := sample_dimensions.outer_diameter
  let inner_d := sample_dimensions.inner_diameter
  let height := sample_dimensions.height
  let turns := sample_dimensions.turns
  let mean_diameter := (outer_d + inner_d) / 2
  let cross_section_area := height * (outer_d - inner_d) / 2
  let mean_length := Real.pi * mean_diameter
  let omega : List ℝ := frequency.map (fun f => 2 * Real.pi * f)
  let inductance : List ℝ :=
    List.zipWith (fun w (z : ℂ) => if w ≠ 0 then z.im / w else 0)
      omega impedance
  let permeability : List ℝ :=
    inductance.map (fun L => L * mean_length /
      (mu_0 * turns ^ 2 * cross_section_area))
  let resistance : List ℝ := impedance.map Complex.re
  let denominator : List ℝ := List.zipWith (fun w L => w * L) omega inductance
  let loss_factor : List ℝ :=
    List.zipWith (fun r d => if d ≠ 0 then r / d else 0)
      resistance denominator
  let mu_real : List ℝ := permeability
  let mu_imag : List ℝ := List.zipWith (fun m l => m * l) mu_real loss_factor
  let complex_permeability : List ℂ :=
    List.zipWith (fun (m i : ℝ) => (m : ℂ) - Complex.I * (i : ℂ))
      mu_real mu_imag
  (complex_permeability, mu_real, mu_imag)

/-! Pointwise form.

The same computation at a single index: `omegaAt`, `inductanceAt`, …
are the per-element values of the arrays `omega`, `inductance`, … of the
source, and `calculate_permeability_eq` below proves that the array
function is exactly the elementwise application of these. -/

/-- Source line `omega = 2 * np.pi * frequency`, at one index. -/
noncomputable def omegaAt (f : ℝ) : ℝ := 2 * Real.pi * f

/-- Source line `inductance = np.where(omega != 0, np.imag(impedance) / omega, 0)`,
at one index. -/
noncomputable def inductanceAt (z : ℂ) (f : ℝ) : ℝ :=
  if omegaAt f ≠ 0 then z.im / omegaAt f else 0

/-- Source line `permeability = (inductance * mean_length) / (mu_0 * turns**2 *
cross_section_area)`, at one index; since `permeability` is real,
`mu_real = np.real(permeability)` is the same value. -/
noncomputable def mu_realAt (g : SampleGeometry) (z : ℂ) (f : ℝ) : ℝ :=
  inductanceAt z f * mean_length g /
    (mu_0 * g.turns ^ 2 * cross_section_area g)

/-- Source line `loss_factor = np.where(denominator != 0, resistance / denominator,
0)` with `denominator = omega * inductance`, at one index. -/
noncomputable def loss_factorAt (z : ℂ) (f : ℝ) : ℝ :=
  if omegaAt f * inductanceAt z f ≠ 0 then
    z.re / (omegaAt f * inductanceAt z f)
  else 0

/-- Source line `mu_imag = mu_real * loss_factor`, at one index. -/
noncomputable def mu_imagAt (g : SampleGeometry) (z : ℂ) (f : ℝ) : ℝ :=
  mu_realAt g z f * loss_factorAt z f

/-- Source line `complex_permeability = mu_real - 1j * mu_imag`, at one index. -/
noncomputable def complex_permeabilityAt (g : SampleGeometry) (z : ℂ)
    (f : ℝ) : ℂ :=
  (mu_realAt g z f : ℂ) - Complex.I * (mu_imagAt g z f : ℂ)

/-- The array function is the elementwise application of the pointwise
functions: this justifies reasoning index by index. -/
theorem calculate_permeability_eq (g : SampleGeometry) :
    ∀ (Z : List ℂ) (F : List ℝ),
      calculate_permeability Z F g =
        (List.zipWith (fun z f => complex_permeabilityAt g z f) Z F,
         List.zipWith (fun z f => mu_realAt g z f) Z F,
         List.zipWith (fun z f => mu_imagAt g z f) Z F)
  | [], F => by cases F <;> rfl
  | z :: Zt, [] => rfl
  | z :: Zt, f :: Ft => by
    have ih := calculate_permeability_eq g Zt Ft
    have h1 := congrArg Prod.fst ih
    have h2 := congrArg (fun p => p.2.1) ih
    have h3 := congrArg (fun p => p.2.2) ih
    simp only [calculate_permeability, List.map_cons,
      List.zipWith_cons_cons] at h1 h2 h3 ⊢
    refine Prod.ext ?_ (Prod.ext ?_ ?_)
    · rw [h1]
      rfl
    · rw [h2]
      rfl
    · rw [h2] at h3
      rw [h2, h3]
      rfl

/-- Element `i` of the first output (`complex_permeability`). -/
theorem complex_out_getElem (Z : List ℂ) (F : List ℝ) (g : SampleGeometry)
    (i : ℕ) (hZ : i < Z.length) (hF : i < F.length) :
    (calculate_permeability Z F g).1[i]? =
      some (complex_permeabilityAt g Z[i] F[i]) := by
  rw [calculate_permeability_eq]
  simp [List.getElem?_zipWith, List.getElem?_eq_getElem hZ,
    List.getElem?_eq_getElem hF]

/-- Element `i` of the second output (`mu_real`). -/
theorem mu_real_out_getElem (Z : List ℂ) (F : List ℝ) (g : SampleGeometry)
    (i : ℕ) (hZ : i < Z.length) (hF : i < F.length) :
    (calculate_permeability Z F g).2.1[i]? = some (mu_realAt g Z[i] F[i]) := by
  rw [calculate_permeability_eq]
  simp [List.getElem?_zipWith, List.getElem?_eq_getElem hZ,
    List.getElem?_eq_getElem hF]

/-- Element `i` of the third output (`mu_imag`). -/
theorem mu_imag_out_getElem (Z : List ℂ) (F : List ℝ) (g : SampleGeometry)
    (i : ℕ) (hZ : i < Z.length) (hF : i < F.length) :
    (calculate_permeability Z F g).2.2[i]? = some (mu_imagAt g Z[i] F[i]) := by
  rw [calculate_permeability_eq]
  simp [List.getElem?_zipWith, List.getElem?_eq_getElem hZ,
    List.getElem?_eq_getElem hF]

/-- The example geometry of `example_usage` and of the spec's concrete
scenario: outer 20 mm, inner 10 mm, height 5 mm, 10 turns. -/
noncomputable def exampleGeometry : SampleGeometry :=
  { outer_diameter := 20e-3, inner_diameter := 10e-3,
    height := 5e-3, turns := 10 }

/-- C1: at every index whose angular frequency `ω_i = 2π·frequency[i]`
is non-zero, `mu_real[i] = (Im(Z[i])/ω_i · mean_length) / (μ₀ · turns² ·
cross_section_area)` with `mean_length = π(outer+inner)/2`,
`cross_section_area = height·(outer−inner)/2` and `μ₀ = 4π·10⁻⁷`; at an
index with `ω_i = 0` the inductance is forced to `0` and `mu_real[i] = 0`. -/
theorem C1_mu_real_formula (Z : List ℂ) (F : List ℝ) (g : SampleGeometry)
    (i : ℕ) (hZ : i < Z.length) (hF : i < F.length) :
    (2 * Real.pi * F[i] ≠ 0 →
      (calculate_permeability Z F g).2.1[i]? =
        some (Z[i].im / (2 * Real.pi * F[i]) *
            (Real.pi * (g.outer_diameter + g.inner_diameter) / 2) /
          (4 * Real.pi * 1e-7 * g.turns ^ 2 *
            (g.height * (g.outer_diameter - g.inner_diameter) / 2)))) ∧
    (2 * Real.pi * F[i] = 0 →
      (calculate_permeability Z F g).2.1[i]? = some 0) := by
  rw [mu_real_out_getElem Z F g i hZ hF]
  constructor
  · intro hw
    simp only [mu_realAt, inductanceAt, omegaAt, mean_length, mean_diameter,
      cross_section_area, mu_0, if_pos hw, Option.some_inj]
    ring
  · intro hw
    simp only [mu_realAt, inductanceAt, omegaAt, mean_length, mean_diameter,
      cross_section_area, mu_0, hw, ite_not, if_pos rfl, Option.some_inj]
    simp

/-- Witness for `C1_mu_real_formula` at `Z = [3 + 4i]`, `F = [2]`,
`g = exampleGeometry`, `i = 0`. -/
theorem C1_witness :
    (0 < ([⟨3, 4⟩] : List ℂ).length ∧ 0 < ([2] : List ℝ).length) ∧
    ((2 * Real.pi * ([2] : List ℝ)[0] ≠ 0 →
      (calculate_permeability [⟨3, 4⟩] [2] exampleGeometry).2.1[0]? =
        some ((⟨3, 4⟩ : ℂ).im / (2 * Real.pi * ([2] : List ℝ)[0]) *
            (Real.pi * (exampleGeometry.outer_diameter +
              exampleGeometry.inner_diameter) / 2) /
          (4 * Real.pi * 1e-7 * exampleGeometry.turns ^ 2 *
            (exampleGeometry.height * (exampleGeometry.outer_diameter -
              exampleGeometry.inner_diameter) / 2)))) ∧
    (2 * Real.pi * ([2] : List ℝ)[0] = 0 →
      (calculate_permeability [⟨3, 4⟩] [2] exampleGeometry).2.1[0]? =
        some 0)) :=
  ⟨⟨by simp, by simp⟩,
    C1_mu_real_formula [⟨3, 4⟩] [2] exampleGeometry 0 (by simp) (by simp)⟩

/-- C3: at every index with `frequency[i] = 0`, the returned
`mu_imag[i]` is exactly `0` (whatever the impedance there), and
`mu_real[i]` is also exactly `0`, because the inductance is forced to
`0` at that index. -/
theorem C3_zero_frequency (Z : List ℂ) (F : List ℝ) (g : SampleGeometry)
    (i : ℕ) (hZ : i < Z.length) (hF : i < F.length) (h0 : F[i] = 0) :
    (calculate_permeability Z F g).2.2[i]? = some 0 ∧
    (calculate_permeability Z F g).2.1[i]? = some 0 := by
  rw [mu_imag_out_getElem Z F g i hZ hF, mu_real_out_getElem Z F g i hZ hF]
  constructor
  · simp [mu_imagAt, mu_realAt, inductanceAt, omegaAt, h0]
  · simp [mu_realAt, inductanceAt, omegaAt, h0]

/-- Witness for `C3_zero_frequency` at `Z = [5 + 7i]`, `F = [0]`. -/
theorem C3_witness :
    (0 < ([⟨5, 7⟩] : List ℂ).length ∧ 0 < ([0] : List ℝ).length ∧
      ([0] : List ℝ)[0] = 0) ∧
    ((calculate_permeability [⟨5, 7⟩] [0] exampleGeometry).2.2[0]? = some 0 ∧
     (calculate_permeability [⟨5, 7⟩] [0] exampleGeometry).2.1[0]? = some 0) :=
  ⟨⟨by simp, by simp, by simp⟩,
    C3_zero_frequency [⟨5, 7⟩] [0] exampleGeometry 0 (by simp) (by simp)
      (by simp)⟩

/-- C4: at every index, the returned complex permeability equals
`mu_real[i] - i·mu_imag[i]` exactly, while the returned `mu_imag[i]`
itself is the un-negated product `mu_real[i] · loss_factor[i]`
(positive-loss convention): the minus sign lives only in the complex
combination. -/
theorem C4_sign_convention (Z : List ℂ) (F : List ℝ) (g : SampleGeometry)
    (i : ℕ) (hZ : i < Z.length) (hF : i < F.length) :
    (calculate_permeability Z F g).1[i]? =
      some ((mu_realAt g Z[i] F[i] : ℂ) -
        Complex.I * (mu_imagAt g Z[i] F[i] : ℂ)) ∧
    (calculate_permeability Z F g).2.2[i]? =
      some (mu_realAt g Z[i] F[i] * loss_factorAt Z[i] F[i]) := by
  rw [complex_out_getElem Z F g i hZ hF, mu_imag_out_getElem Z F g i hZ hF]
  exact ⟨rfl, rfl⟩

/-- Witness for `C4_sign_convention` at `Z = [3 + 4i]`, `F = [2]`. -/
theorem C4_witness :
    (0 < ([⟨3, 4⟩] : List ℂ).length ∧ 0 < ([2] : List ℝ).length) ∧
    ((calculate_permeability [⟨3, 4⟩] [2] exampleGeometry).1[0]? =
      some ((mu_realAt exampleGeometry ⟨3, 4⟩ 2 : ℂ) -
        Complex.I * (mu_imagAt exampleGeometry ⟨3, 4⟩ 2 : ℂ)) ∧
    (calculate_permeability [⟨3, 4⟩] [2] exampleGeometry).2.2[0]? =
      some (mu_realAt exampleGeometry ⟨3, 4⟩ 2 *
        loss_factorAt ⟨3, 4⟩ 2)) :=
  ⟨⟨by simp, by simp⟩,
    C4_sign_convention [⟨3, 4⟩] [2] exampleGeometry 0 (by simp) (by simp)⟩

/-- C5: at every index, `mu_imag[i] = mu_real[i] · loss_factor[i]`
with `loss_factor[i] = Re(Z[i]) / (ω_i · inductance_i)` when
`ω_i · inductance_i ≠ 0` and `loss_factor[i] = 0` otherwise; in
particular `mu_imag[i] = 0` exactly whenever `ω_i · inductance_i = 0`. -/
theorem C5_loss_factor (Z : List ℂ) (F : List ℝ) (g : SampleGeometry)
    (i : ℕ) (hZ : i < Z.length) (hF : i < F.length) :
    (omegaAt F[i] * inductanceAt Z[i] F[i] ≠ 0 →
      (calculate_permeability Z F g).2.2[i]? =
        some (mu_realAt g Z[i] F[i] *
          (Z[i].re / (omegaAt F[i] * inductanceAt Z[i] F[i])))) ∧
    (omegaAt F[i] * inductanceAt Z[i] F[i] = 0 →
      (calculate_permeability Z F g).2.2[i]? = some 0) := by
  rw [mu_imag_out_getElem Z F g i hZ hF]
  constructor
  · intro hd
    simp only [mu_imagAt, loss_factorAt, if_pos hd]
  · intro hd
    simp [mu_imagAt, loss_factorAt, hd]

/-- Witness for `C5_loss_factor` at `Z = [3 + 4i]`, `F = [2]`. -/
theorem C5_witness :
    (0 < ([⟨3, 4⟩] : List ℂ).length ∧ 0 < ([2] : List ℝ).length) ∧
    ((omegaAt ([2] : List ℝ)[0] *
        inductanceAt (([⟨3, 4⟩] : List ℂ)[0]) ([2] : List ℝ)[0] ≠ 0 →
      (calculate_permeability [⟨3, 4⟩] [2] exampleGeometry).2.2[0]? =
        some (mu_realAt exampleGeometry ([⟨3, 4⟩] : List ℂ)[0]
            ([2] : List ℝ)[0] *
          ((([⟨3, 4⟩] : List ℂ)[0]).re /
            (omegaAt ([2] : List ℝ)[0] *
              inductanceAt (([⟨3, 4⟩] : List ℂ)[0]) ([2] : List ℝ)[0])))) ∧
    (omegaAt ([2] : List ℝ)[0] *
        inductanceAt (([⟨3, 4⟩] : List ℂ)[0]) ([2] : List ℝ)[0] = 0 →
      (calculate_permeability [⟨3, 4⟩] [2] exampleGeometry).2.2[0]? =
        some 0)) :=
  ⟨⟨by simp, by simp⟩,
    C5_loss_factor [⟨3, 4⟩] [2] exampleGeometry 0 (by simp) (by simp)⟩

/-- Scaling the impedance sample by a real `k` scales the computed
inductance by `k` (the zero-frequency guard does not involve the
impedance). -/
theorem inductanceAt_real_smul (k : ℝ) (z : ℂ) (f : ℝ) :
    inductanceAt ((k : ℂ) * z) f = k * inductanceAt z f := by
  unfold inductanceAt
  split
  · simp only [Complex.mul_im, Complex.ofReal_re, Complex.ofReal_im]
    ring
  · ring

/-- Scaling the impedance sample by a real `k` scales `mu_real` by `k`. -/
theorem mu_realAt_real_smul (g : SampleGeometry) (k : ℝ) (z : ℂ) (f : ℝ) :
    mu_realAt g ((k : ℂ) * z) f = k * mu_realAt g z f := by
  unfold mu_realAt
  rw [inductanceAt_real_smul]
  ring

/-- Scaling the impedance sample by a non-zero real `k` leaves the loss
factor unchanged: numerator and denominator both scale by `k`. -/
theorem loss_factorAt_real_smul (k : ℝ) (hk : k ≠ 0) (z : ℂ) (f : ℝ) :
    loss_factorAt ((k : ℂ) * z) f = loss_factorAt z f := by
  unfold loss_factorAt
  rw [inductanceAt_real_smul]
  have hre : ((k : ℂ) * z).re = k * z.re := by
    simp [Complex.mul_re]
  have key : omegaAt f * (k * inductanceAt z f) =
      k * (omegaAt f * inductanceAt z f) := by ring
  rw [hre, key]
  by_cases hd : omegaAt f * inductanceAt z f = 0
  · rw [if_neg (by simp [hd]), if_neg (by simp [hd])]
  · rw [if_pos (mul_ne_zero hk hd), if_pos hd,
      mul_div_mul_left z.re (omegaAt f * inductanceAt z f) hk]

/-- Scaling the impedance sample by a non-zero real `k` scales `mu_imag`
by `k`. -/
theorem mu_imagAt_real_smul (g : SampleGeometry) (k : ℝ) (hk : k ≠ 0)
    (z : ℂ) (f : ℝ) :
    mu_imagAt g ((k : ℂ) * z) f = k * mu_imagAt g z f := by
  unfold mu_imagAt
  rw [mu_realAt_real_smul, loss_factorAt_real_smul k hk]
  ring

/-- C6: scaling every impedance value by a positive real constant `k`
scales `mu_real` and `mu_imag` by `k` at every index whose frequency is
non-zero, relative to the unscaled call. -/
theorem C6_impedance_scaling (Z : List ℂ) (F : List ℝ) (g : SampleGeometry)
    (k : ℝ) (hk : 0 < k) (i : ℕ) (hZ : i < Z.length) (hF : i < F.length)
    (hf : F[i] ≠ 0) :
    (calculate_permeability (Z.map fun z => (k : ℂ) * z) F g).2.1[i]? =
      ((calculate_permeability Z F g).2.1[i]?).map (fun x => k * x) ∧
    (calculate_permeability (Z.map fun z => (k : ℂ) * z) F g).2.2[i]? =
      ((calculate_permeability Z F g).2.2[i]?).map (fun x => k * x) := by
  have hZ' : i < (Z.map fun z => (k : ℂ) * z).length := by simpa using hZ
  rw [mu_real_out_getElem _ F g i hZ' hF, mu_imag_out_getElem _ F g i hZ' hF,
    mu_real_out_getElem Z F g i hZ hF, mu_imag_out_getElem Z F g i hZ hF]
  simp only [List.getElem_map, Option.map_some']
  exact ⟨by rw [mu_realAt_real_smul],
    by rw [mu_imagAt_real_smul g k (ne_of_gt hk)]⟩

/-- Witness for `C6_impedance_scaling` at `k = 2`, `Z = [3 + 4i]`,
`F = [2]`. -/
theorem C6_witness :
    ((0 : ℝ) < 2 ∧ 0 < ([⟨3, 4⟩] : List ℂ).length ∧
      0 < ([2] : List ℝ).length ∧ ([2] : List ℝ)[0] ≠ 0) ∧
    ((calculate_permeability (([⟨3, 4⟩] : List ℂ).map
        fun z => ((2 : ℝ) : ℂ) * z) [2] exampleGeometry).2.1[0]? =
      ((calculate_permeability [⟨3, 4⟩] [2] exampleGeometry).2.1[0]?).map
        (fun x => 2 * x) ∧
    (calculate_permeability (([⟨3, 4⟩] : List ℂ).map
        fun z => ((2 : ℝ) : ℂ) * z) [2] exampleGeometry).2.2[0]? =
      ((calculate_permeability [⟨3, 4⟩] [2] exampleGeometry).2.2[0]?).map
        (fun x => 2 * x)) :=
  ⟨⟨by norm_num, by simp, by simp, by norm_num⟩,
    C6_impedance_scaling [⟨3, 4⟩] [2] exampleGeometry 2 (by norm_num) 0
      (by simp) (by simp) (by norm_num)⟩

/-- C7: all three returned sequences have exactly the length `N` of
the inputs, for every `N ≥ 0`. -/
theorem C7_shape_preservation (Z : List ℂ) (F : List ℝ) (g : SampleGeometry)
    (n : ℕ) (hZ : Z.length = n) (hF : F.length = n) :
    (calculate_permeability Z F g).1.length = n ∧
    (calculate_permeability Z F g).2.1.length = n ∧
    (calculate_permeability Z F g).2.2.length = n := by
  rw [calculate_permeability_eq]
  simp [hZ, hF]

/-- Witness for `C7_shape_preservation` at `N = 0`: empty inputs yield
three empty outputs. -/
theorem C7_witness :
    (([] : List ℂ).length = 0 ∧ ([] : List ℝ).length = 0) ∧
    ((calculate_permeability [] [] exampleGeometry).1.length = 0 ∧
     (calculate_permeability [] [] exampleGeometry).2.1.length = 0 ∧
     (calculate_permeability [] [] exampleGeometry).2.2.length = 0) :=
  ⟨⟨rfl, rfl⟩, C7_shape_preservation [] [] exampleGeometry 0 rfl rfl⟩

/-- C9: the calculator is a pure function of its arguments — two
calls on identical inputs return identical results.  (The embedding is
functional because the source mutates nothing: every numpy operation in
`calculate_permeability` allocates a fresh array.) -/
theorem C9_deterministic (Z₁ Z₂ : List ℂ) (F₁ F₂ : List ℝ)
    (g₁ g₂ : SampleGeometry) (hZ : Z₁ = Z₂) (hF : F₁ = F₂) (hg : g₁ = g₂) :
    calculate_permeability Z₁ F₁ g₁ = calculate_permeability Z₂ F₂ g₂ := by
  rw [hZ, hF, hg]

/-- Witness for `C9_deterministic` on a concrete input. -/
theorem C9_witness :
    (([⟨3, 4⟩] : List ℂ) = [⟨3, 4⟩] ∧ ([2] : List ℝ) = [2] ∧
      exampleGeometry = exampleGeometry) ∧
    calculate_permeability [⟨3, 4⟩] [2] exampleGeometry =
      calculate_permeability [⟨3, 4⟩] [2] exampleGeometry :=
  ⟨⟨rfl, rfl, rfl⟩,
    C9_deterministic [⟨3, 4⟩] [⟨3, 4⟩] [2] [2] exampleGeometry
      exampleGeometry rfl rfl rfl⟩

/-- C8: with geometry satisfying the `SampleGeometry` invariant and
at an index where `ω_i ≠ 0` and `inductance_i ≠ 0`, every division the
calculator performs has a non-zero denominator, and the outputs at that
index are the corresponding well-defined quotients — so on finite inputs
the element-`i` outputs are finite (no division by zero occurs). -/
theorem C8_finite_outputs (Z : List ℂ) (F : List ℝ) (g : SampleGeometry)
    (i : ℕ) (hZ : i < Z.length) (hF : i < F.length)
    (h1 : 0 < g.inner_diameter) (h2 : g.inner_diameter < g.outer_diameter)
    (h3 : 0 < g.height) (h4 : 1 ≤ g.turns)
    (hw : omegaAt F[i] ≠ 0) (hL : inductanceAt Z[i] F[i] ≠ 0) :
    mu_0 * g.turns ^ 2 * cross_section_area g ≠ 0 ∧
    omegaAt F[i] * inductanceAt Z[i] F[i] ≠ 0 ∧
    (calculate_permeability Z F g).2.1[i]? =
      some (Z[i].im / omegaAt F[i] * mean_length g /
        (mu_0 * g.turns ^ 2 * cross_section_area g)) ∧
    (calculate_permeability Z F g).2.2[i]? =
      some (Z[i].im / omegaAt F[i] * mean_length g /
          (mu_0 * g.turns ^ 2 * cross_section_area g) *
        (Z[i].re / (omegaAt F[i] * inductanceAt Z[i] F[i]))) := by
  have hA : 0 < cross_section_area g := by
    unfold cross_section_area
    have := sub_pos.mpr h2
    positivity
  have hmu : 0 < mu_0 := by
    unfold mu_0
    positivity
  have ht : 0 < g.turns := lt_of_lt_of_le zero_lt_one h4
  have hD : mu_0 * g.turns ^ 2 * cross_section_area g ≠ 0 :=
    ne_of_gt (mul_pos (mul_pos hmu (pow_pos ht 2)) hA)
  have hind : inductanceAt Z[i] F[i] = Z[i].im / omegaAt F[i] := if_pos hw
  have hL' : Z[i].im / omegaAt F[i] ≠ 0 := hind ▸ hL
  have hwD : omegaAt F[i] * (Z[i].im / omegaAt F[i]) ≠ 0 :=
    mul_ne_zero hw hL'
  refine ⟨hD, mul_ne_zero hw hL, ?_, ?_⟩
  · rw [mu_real_out_getElem Z F g i hZ hF]
    unfold mu_realAt
    rw [hind]
  · rw [mu_imag_out_getElem Z F g i hZ hF]
    unfold mu_imagAt loss_factorAt mu_realAt
    rw [hind, if_pos hwD]

/-- Witness for `C8_finite_outputs` at `Z = [3 + 4i]`, `F = [2]`,
`g = exampleGeometry`. -/
theorem C8_witness :
    (0 < ([⟨3, 4⟩] : List ℂ).length ∧ 0 < ([2] : List ℝ).length ∧
      0 < exampleGeometry.inner_diameter ∧
      exampleGeometry.inner_diameter < exampleGeometry.outer_diameter ∧
      0 < exampleGeometry.height ∧ 1 ≤ exampleGeometry.turns ∧
      omegaAt (([2] : List ℝ)[0]) ≠ 0 ∧
      inductanceAt (([⟨3, 4⟩] : List ℂ)[0]) (([2] : List ℝ)[0]) ≠ 0) ∧
    (mu_0 * exampleGeometry.turns ^ 2 *
        cross_section_area exampleGeometry ≠ 0 ∧
    omegaAt (([2] : List ℝ)[0]) *
        inductanceAt (([⟨3, 4⟩] : List ℂ)[0]) (([2] : List ℝ)[0]) ≠ 0 ∧
    (calculate_permeability [⟨3, 4⟩] [2] exampleGeometry).2.1[0]? =
      some ((([⟨3, 4⟩] : List ℂ)[0]).im / omegaAt (([2] : List ℝ)[0]) *
          mean_length exampleGeometry /
        (mu_0 * exampleGeometry.turns ^ 2 *
          cross_section_area exampleGeometry)) ∧
    (calculate_permeability [⟨3, 4⟩] [2] exampleGeometry).2.2[0]? =
      some ((([⟨3, 4⟩] : List ℂ)[0]).im / omegaAt (([2] : List ℝ)[0]) *
          mean_length exampleGeometry /
          (mu_0 * exampleGeometry.turns ^ 2 *
            cross_section_area exampleGeometry) *
        ((([⟨3, 4⟩] : List ℂ)[0]).re /
          (omegaAt (([2] : List ℝ)[0]) *
            inductanceAt (([⟨3, 4⟩] : List ℂ)[0]) (([2] : List ℝ)[0]))))) :=
  ⟨⟨by simp, by simp, by norm_num [exampleGeometry],
      by norm_num [exampleGeometry], by norm_num [exampleGeometry],
      by norm_num [exampleGeometry],
      by simp only [List.getElem_cons_zero]; unfold omegaAt; positivity,
      by
        simp only [List.getElem_cons_zero]
        unfold inductanceAt omegaAt
        rw [if_pos (by positivity)]
        show (4 : ℝ) / (2 * Real.pi * 2) ≠ 0
        positivity⟩,
    C8_finite_outputs [⟨3, 4⟩] [2] exampleGeometry 0 (by simp) (by simp)
      (by norm_num [exampleGeometry]) (by norm_num [exampleGeometry])
      (by norm_num [exampleGeometry]) (by norm_num [exampleGeometry])
      (by simp only [List.getElem_cons_zero]; unfold omegaAt; positivity)
      (by
        simp only [List.getElem_cons_zero]
        unfold inductanceAt omegaAt
        rw [if_pos (by positivity)]
        show (4 : ℝ) / (2 * Real.pi * 2) ≠ 0
        positivity)⟩

/-- Closed form of `mu_imag` at an index with non-zero angular frequency
and non-zero reactance: the reactance cancels between `mu_real` and the
loss factor. -/
theorem mu_imagAt_closed_form (g : SampleGeometry) (z : ℂ) (f : ℝ)
    (hw : omegaAt f ≠ 0) (him : z.im ≠ 0) :
    mu_imagAt g z f = z.re * mean_length g /
      (mu_0 * g.turns ^ 2 * cross_section_area g * omegaAt f) := by
  have hL : inductanceAt z f = z.im / omegaAt f := if_pos hw
  have hwL : omegaAt f * inductanceAt z f = z.im := by
    rw [hL]
    field_simp
  unfold mu_imagAt mu_realAt loss_factorAt
  rw [hwL, if_pos him, hL]
  by_cases hD : mu_0 * g.turns ^ 2 * cross_section_area g = 0
  · simp [hD]
  · field_simp
    ring

/-- C10: at an index with `ω_i ≠ 0`, the returned `mu_imag[i]` does
not depend on the (non-zero) reactance: two calls agreeing on
`Re(Z[i])`, frequency and geometry, with both reactances non-zero,
return the same `mu_imag[i]`, equal to
`Re(Z[i])·mean_length / (μ₀·turns²·cross_section_area·ω_i)`. -/
theorem C10_reactance_independence (Z Z' : List ℂ) (F : List ℝ)
    (g : SampleGeometry) (i : ℕ) (hZ : i < Z.length) (hZ2 : i < Z'.length)
    (hF : i < F.length) (hw : omegaAt F[i] ≠ 0)
    (him : Z[i].im ≠ 0) (him2 : Z'[i].im ≠ 0) (hre : Z[i].re = Z'[i].re) :
    (calculate_permeability Z F g).2.2[i]? =
      (calculate_permeability Z' F g).2.2[i]? ∧
    (calculate_permeability Z F g).2.2[i]? =
      some (Z[i].re * mean_length g /
        (mu_0 * g.turns ^ 2 * cross_section_area g * omegaAt F[i])) := by
  rw [mu_imag_out_getElem Z F g i hZ hF, mu_imag_out_getElem Z' F g i hZ2 hF,
    mu_imagAt_closed_form g Z[i] F[i] hw him,
    mu_imagAt_closed_form g Z'[i] F[i] hw him2, hre]
  exact ⟨rfl, rfl⟩

/-- Witness for `C10_reactance_independence` at `Z = [3 + 4i]`,
`Z' = [3 + 9i]`, `F = [2]`. -/
theorem C10_witness :
    (0 < ([⟨3, 4⟩] : List ℂ).length ∧ 0 < ([⟨3, 9⟩] : List ℂ).length ∧
      0 < ([2] : List ℝ).length ∧ omegaAt (([2] : List ℝ)[0]) ≠ 0 ∧
      (([⟨3, 4⟩] : List ℂ)[0]).im ≠ 0 ∧ (([⟨3, 9⟩] : List ℂ)[0]).im ≠ 0 ∧
      (([⟨3, 4⟩] : List ℂ)[0]).re = (([⟨3, 9⟩] : List ℂ)[0]).re) ∧
    ((calculate_permeability [⟨3, 4⟩] [2] exampleGeometry).2.2[0]? =
      (calculate_permeability [⟨3, 9⟩] [2] exampleGeometry).2.2[0]? ∧
    (calculate_permeability [⟨3, 4⟩] [2] exampleGeometry).2.2[0]? =
      some ((([⟨3, 4⟩] : List ℂ)[0]).re * mean_length exampleGeometry /
        (mu_0 * exampleGeometry.turns ^ 2 *
          cross_section_area exampleGeometry * omegaAt (([2] : List ℝ)[0])))) :=
  ⟨⟨by simp, by simp, by simp,
      by simp only [List.getElem_cons_zero]; unfold omegaAt; positivity,
      by norm_num [Complex.im], by norm_num [Complex.im], by simp⟩,
    C10_reactance_independence [⟨3, 4⟩] [⟨3, 9⟩] [2] exampleGeometry 0
      (by simp) (by simp) (by simp)
      (by simp only [List.getElem_cons_zero]; unfold omegaAt; positivity)
      (by norm_num [Complex.im]) (by norm_num [Complex.im]) (by simp)⟩

/-- In the spec's concrete scenario (1 μH pure reactance at 1 MHz with
the example geometry) the computed `mu_real` is exactly `15`. -/
theorem scenario_mu_real_value :
    mu_realAt exampleGeometry ⟨0, 2 * Real.pi * 1e6 * 1e-6⟩ 1e6 = 15 := by
  unfold mu_realAt inductanceAt omegaAt mean_length mean_diameter
    cross_section_area mu_0 exampleGeometry
  rw [if_pos (show 2 * Real.pi * (1e6 : ℝ) ≠ 0 by positivity)]
  show 2 * Real.pi * 1e6 * 1e-6 / (2 * Real.pi * 1e6) *
      (Real.pi * ((20e-3 + 10e-3) / 2)) /
    (4 * Real.pi * 1e-7 * (10 : ℝ) ^ 2 * (5e-3 * (20e-3 - 10e-3) / 2)) = 15
  rw [div_eq_iff (by positivity)]
  field_simp
  ring

/-- In the spec's concrete scenario the computed `mu_imag` is exactly
`0`, since the resistance is `0`. -/
theorem scenario_mu_imag_value :
    mu_imagAt exampleGeometry ⟨0, 2 * Real.pi * 1e6 * 1e-6⟩ 1e6 = 0 := by
  unfold mu_imagAt loss_factorAt
  split <;> simp

/-- In the spec's concrete scenario the computed complex permeability is
exactly `15` (that is, `15 - 0j`). -/
theorem scenario_complex_value :
    complex_permeabilityAt exampleGeometry ⟨0, 2 * Real.pi * 1e6 * 1e-6⟩
      1e6 = 15 := by
  unfold complex_permeabilityAt
  rw [scenario_mu_real_value, scenario_mu_imag_value]
  simp

/-- C2, counterexample: on the spec's concrete scenario the code
returns `mu_real[0] = 15` exactly — not approximately `1499.7` as the
claim states (the value `15` is not even within `1000` of `1499.7`).
The spec's arithmetic dropped the `turns² = 100` factor from the
denominator. -/
theorem C2_counterexample :
    (calculate_permeability [⟨0, 2 * Real.pi * 1e6 * 1e-6⟩] [1e6]
        exampleGeometry).2.1[0]? = some 15 ∧
    ∀ x : ℝ,
      (calculate_permeability [⟨0, 2 * Real.pi * 1e6 * 1e-6⟩] [1e6]
          exampleGeometry).2.1[0]? = some x →
        1000 < |x - 1499.7| := by
  have h15 : (calculate_permeability [⟨0, 2 * Real.pi * 1e6 * 1e-6⟩] [1e6]
      exampleGeometry).2.1[0]? = some 15 := by
    rw [mu_real_out_getElem _ _ _ 0 (by simp) (by simp)]
    simp only [List.getElem_cons_zero]
    exact congrArg some scenario_mu_real_value
  refine ⟨h15, ?_⟩
  intro x hx
  rw [h15, Option.some_inj] at hx
  subst hx
  rw [abs_sub_comm, abs_of_pos (by norm_num)]
  norm_num

/-- C2, amended: on the spec's concrete scenario (geometry
`{outer = 20 mm, inner = 10 mm, height = 5 mm, turns = 10}`,
`frequency = [1e6]`, `impedance = [0 + j·2π·10⁶·10⁻⁶]`) the function
returns `mu_real[0] = 15` exactly, `mu_imag[0] = 0`, and
`complex_permeability[0] = 15 - 0j`. -/
theorem C2_amended_scenario :
    (calculate_permeability [⟨0, 2 * Real.pi * 1e6 * 1e-6⟩] [1e6]
        exampleGeometry).1[0]? = some 15 ∧
    (calculate_permeability [⟨0, 2 * Real.pi * 1e6 * 1e-6⟩] [1e6]
        exampleGeometry).2.1[0]? = some 15 ∧
    (calculate_permeability [⟨0, 2 * Real.pi * 1e6 * 1e-6⟩] [1e6]
        exampleGeometry).2.2[0]? = some 0 := by
  rw [complex_out_getElem _ _ _ 0 (by simp) (by simp),
    mu_real_out_getElem _ _ _ 0 (by simp) (by simp),
    mu_imag_out_getElem _ _ _ 0 (by simp) (by simp)]
  simp only [List.getElem_cons_zero]
  exact ⟨congrArg some scenario_complex_value,
    congrArg some scenario_mu_real_value,
    congrArg some scenario_mu_imag_value⟩

end PermCalc
